import Mathlib

/-!
Shallow embedding of `javascript-basic-mnist` in Lean 4, in exact arithmetic.

JavaScript `number` arithmetic is modelled by an arbitrary linear ordered
field (instantiated at `ℚ` for executable checks and at `ℝ` where `Math.exp`,
`Math.log`, `Math.sqrt`, `Math.cos` occur).  JS array indexing `a[i]` is
modelled by `List.getD i 0` in the numeric core; every loop
`for (i = 0; i < n; i++)` pushing a value becomes `(List.range n).map`.
Where an out-of-range access is actually reachable (`Buffer` reads in
`readMNIST`) or where JS produces `NaN` (the unguarded division by the batch
size), the access is modelled by `l[i]?` / `Option` arithmetic, with `none`
standing for `undefined`/`NaN`.
-/

namespace MNIST

/-! ## utils.js -/

/-- `relu(x) = Math.max(0, x)` (utils.js line 6). -/
def relu {α : Type} [LinearOrderedField α] (x : α) : α := max 0 x

/-- `Math.max(...arr)`: the fold of binary max over the array's elements.
For a nonempty array this agrees with JS; JS returns `-Infinity` on an empty
array, a case `softmax` is never applied to (and which infinity-free exact
arithmetic cannot represent). -/
def jsMax {α : Type} [LinearOrderedField α] : List α → α
  | [] => 0
  | x :: xs => xs.foldl max x

/-- `softmax(arr)` (utils.js lines 16–21): subtract the max logit,
exponentiate, divide by the sum of exponentials.  `reduce((a,b) => a+b)` on a
nonempty array is the list sum. -/
noncomputable def softmax (l : List ℝ) : List ℝ :=
  (l.map fun x => Real.exp (x - jsMax l)).map
    fun x => x / (l.map fun y => Real.exp (y - jsMax l)).sum

/-- `crossEntropyLoss(output, target)` (utils.js lines 30–45): the loop
`for i < output.length: if (output[i] > 0) loss -= target[i]*log(output[i])`. -/
noncomputable def crossEntropyLoss (output target : List ℝ) : ℝ :=
  (List.range output.length).foldl
    (fun loss i =>
      if 0 < output.getD i 0 then loss - target.getD i 0 * Real.log (output.getD i 0)
      else loss) 0

/-- `forwardLayer(inputActivations, layerWeights)` (utils.js lines 54–72):
for each neuron row, the weighted sum over `inputIndex < inputActivations.length`
of `input[inputIndex] * weights[neuronIndex][inputIndex]`. -/
def forwardLayer {α : Type} [LinearOrderedField α]
    (inputActivations : List α) (layerWeights : List (List α)) : List α :=
  layerWeights.map fun row =>
    ((List.range inputActivations.length).map
      fun j => inputActivations.getD j 0 * row.getD j 0).sum

/-- `initializeWeights(numInputs, numNeurons)` (utils.js lines 81–97):
He initialization via the Box–Muller transform.  The stream of `Math.random()`
draws is passed in explicitly: entry `(i, j)` consumes draws
`rng (2*(i*numInputs+j))` and `rng (2*(i*numInputs+j)+1)`. -/
noncomputable def initializeWeights (numInputs numNeurons : ℕ) (rng : ℕ → ℝ) :
    List (List ℝ) :=
  (List.range numNeurons).map fun i =>
    (List.range numInputs).map fun j =>
      Real.sqrt (-2 * Real.log (rng (2 * (i * numInputs + j)))) *
        Real.cos (2 * Real.pi * rng (2 * (i * numInputs + j) + 1)) *
        Real.sqrt (2 / (numInputs : ℝ))

/-- `createZeroMatrix(rows, cols)` (utils.js lines 105–111). -/
def createZeroMatrix {α : Type} [LinearOrderedField α] (rows cols : ℕ) :
    List (List α) :=
  (List.range rows).map fun _ => List.replicate cols 0

/-! ## index.js — training script -/

/-- `const learningRate = 0.01` (index.js). -/
def learningRate : ℚ := 1 / 100

/-- One-hot target construction (index.js):
`let target = new Array(10).fill(0); target[image.label] = 1`. -/
def oneHot {α : Type} [LinearOrderedField α] (n label : ℕ) : List α :=
  (List.replicate n 0).set label 1

/-- Output-layer delta (index.js): `dz2 = output.map((prob, i) => prob - target[i])`. -/
def outputDelta {α : Type} [LinearOrderedField α] (output target : List α) : List α :=
  (List.range output.length).map fun i => output.getD i 0 - target.getD i 0

/-- Per-sample gradient accumulation (index.js):
`for i, j: weightGradients[layer][i][j] += dz[i] * a[j]`.
In the source the loop bounds are the weight matrix's dimensions, which equal
the gradient matrix's dimensions by construction (`createZeroMatrix` is called
with the same shape), so the loop visits exactly the entries of `G`. -/
def accumulateGradient {α : Type} [LinearOrderedField α]
    (G : List (List α)) (dz a : List α) : List (List α) :=
  (List.range G.length).map fun i =>
    (List.range (G.getD i []).length).map fun j =>
      (G.getD i []).getD j 0 + dz.getD i 0 * a.getD j 0

/-- Backpropagation through a weight matrix (index.js):
`da = new Array(n).fill(0); for i < n: for j < dz.length: da[i] += w[j][i] * dz[j]`,
where `n` is the previous layer's activation count. -/
def backpropDelta {α : Type} [LinearOrderedField α]
    (W : List (List α)) (dz : List α) (n : ℕ) : List α :=
  (List.range n).map fun i =>
    ((List.range dz.length).map fun j => (W.getD j []).getD i 0 * dz.getD j 0).sum

/-- ReLU-derivative masking (index.js):
`dz = da.map((grad, i) => z[i] > 0 ? grad : 0)`. -/
def reluMask {α : Type} [LinearOrderedField α] (da z : List α) : List α :=
  (List.range da.length).map fun i => if 0 < z.getD i 0 then da.getD i 0 else 0

/-- SGD weight update for one layer (index.js):
`for i, j: w[i][j] -= learningRate * (weightGradients[layer][i][j] / batchSize)`. -/
def applyUpdate {α : Type} [LinearOrderedField α]
    (w G : List (List α)) (batchSize lr : α) : List (List α) :=
  (List.range w.length).map fun i =>
    (List.range (w.getD i []).length).map fun j =>
      (w.getD i []).getD j 0 - lr * ((G.getD i []).getD j 0 / batchSize)

/-- `loadWeights()` (index.js): three matrices keyed `0`, `1`, `2`. -/
def WeightsObj : Type := List (List ℝ) × List (List ℝ) × List (List ℝ)

/-- `loadWeights()` (index.js lines 181–198).  The two external effects are
passed in as data: `file = none` models `fs.existsSync` returning false;
`file = some none` models an existing file on which `JSON.parse` throws
(`SyntaxError` propagates out of `loadWeights` — there is no try/catch);
`file = some (some w)` models a successfully parsed document, which is
returned as-is, with no shape validation.  `r0, r1, r2` are the
`Math.random()` streams consumed by the three `initializeWeights` calls. -/
noncomputable def loadWeights (file : Option (Option WeightsObj))
    (r0 r1 r2 : ℕ → ℝ) : Except String WeightsObj :=
  match file with
  | none => Except.ok
      (initializeWeights 784 16 r0, initializeWeights 16 16 r1,
        initializeWeights 16 10 r2)
  | some none => Except.error "SyntaxError: Unexpected token in JSON"
  | some (some w) => Except.ok w

/-! ## JS division semantics for the empty-batch case

The weight update divides by `images.length` with no guard.  Exact-field
arithmetic cannot express what JS does at `batchSize = 0` (IEEE-754 `0/0 =
NaN`, `x/0 = ±Infinity`), so for that one claim the numbers are modelled as
`Option ℚ` with `none` standing for the non-finite results of a division by
zero, which then propagate through every later operation exactly as NaN
does. -/

/-- JS division: division by zero never throws but yields a non-finite value
(`NaN` for `0/0`, `±Infinity` otherwise), modelled as `none`. -/
def jsDiv : Option ℚ → Option ℚ → Option ℚ
  | some a, some b => if b = 0 then none else some (a / b)
  | _, _ => none

/-- JS multiplication with NaN propagation. -/
def jsMul : Option ℚ → Option ℚ → Option ℚ
  | some a, some b => some (a * b)
  | _, _ => none

/-- JS subtraction with NaN propagation. -/
def jsSub : Option ℚ → Option ℚ → Option ℚ
  | some a, some b => some (a - b)
  | _, _ => none

/-- The per-layer weight update of index.js lines 302–309 under JS numeric
semantics: `w[i][j] -= learningRate * (weightGradients[layer][i][j] / batchSize)`,
written with the NaN-propagating operations.  There is no guard on
`batchSize`. -/
def applyUpdateJs (w G : List (List (Option ℚ))) (batchSize lr : Option ℚ) :
    List (List (Option ℚ)) :=
  (List.range w.length).map fun i =>
    (List.range (w.getD i []).length).map fun j =>
      jsSub ((w.getD i []).getD j none)
        (jsMul lr (jsDiv ((G.getD i []).getD j none) batchSize))

/-! ## images.js -/

/-- One record produced by `readMNIST` (images.js lines 17–21).  A Node
`Buffer` read out of range yields `undefined`: `undefined / 255` is `NaN`
for the pixel, and the label stays `undefined`.  Both fields therefore use
`Option`, `none` standing for those non-numeric values. -/
structure Sample : Type where
  index : ℕ
  label : Option ℕ
  pixels : List (Option ℚ)

instance : Inhabited Sample := ⟨⟨0, none, []⟩⟩

/-- `readMNIST(start, end)` (images.js lines 4–29).  The two `readFileSync`
results are passed in as data: `files = none` models either read throwing
(missing/unreadable file), in which case the catch block returns `[]`;
otherwise the two buffers are byte sequences.  The loop
`for (image = start; image < end && image < 60000; image++)` yields the index
sequence `range' start (min end 60000 - start)`; each record reads 28×28
bytes (`y` outer, `x` inner) at offset `image*28*28 + (x + y*28) + 16`,
divides by 255, and reads the label byte at offset `image + 8`.  A read past
the end of a buffer gives `undefined` (modelled `none`, see `Sample`); there
is no length validation in the source beyond the 60000 cap. -/
def readMNIST (files : Option (List (Fin 256) × List (Fin 256)))
    (start stop : ℕ) : List Sample :=
  match files with
  | none => []
  | some (dataFileBuffer, labelFileBuffer) =>
    (List.range' start (min stop 60000 - start)).map fun image =>
      { index := image
        label := (labelFileBuffer[image + 8]?).map Fin.val
        pixels := (List.range 28).flatMap fun y =>
          (List.range 28).map fun x =>
            (dataFileBuffer[image * 28 * 28 + (x + y * 28) + 16]?).map
              fun b => ((b : ℕ) : ℚ) / 255 }

/-! ## Helper lemmas about list indexing and sums -/

lemma getD_range_map {α : Type} (f : ℕ → α) (d : α) {n i : ℕ} (h : i < n) :
    ((List.range n).map f).getD i d = f i := by
  rw [List.getD_eq_getElem _ _ (by simpa using h)]
  simp

lemma getD_range_map_of_le {α : Type} (f : ℕ → α) (d : α) {n i : ℕ} (h : n ≤ i) :
    ((List.range n).map f).getD i d = d := by
  rw [List.getD_eq_default]
  simpa using h

lemma range_map_sum_eq {M : Type} [AddCommMonoid M] (n : ℕ) (f : ℕ → M) :
    ((List.range n).map f).sum = ∑ j ∈ Finset.range n, f j := by
  induction n with
  | zero => simp
  | succ n ih => rw [List.range_succ]; simp [Finset.sum_range_succ, ih]

lemma getD_map_mul {α : Type} [MulZeroClass α] (c : α) (l : List α) (j : ℕ) :
    (l.map fun v => c * v).getD j 0 = c * l.getD j 0 := by
  rcases lt_or_le j l.length with h | h
  · rw [List.getD_eq_getElem _ _ (by simpa using h), List.getD_eq_getElem _ _ h]
    simp
  · rw [List.getD_eq_default _ _ (by simpa using h), List.getD_eq_default _ _ h,
      mul_zero]

lemma getD_map_of_lt {α β : Type} (f : α → β) (l : List α) {i : ℕ}
    (h : i < l.length) (d : α) (d' : β) :
    (l.map f).getD i d' = f (l.getD i d) := by
  rw [List.getD_eq_getElem _ _ (by simpa using h), List.getD_eq_getElem _ _ h,
    List.getElem_map]

lemma sum_map_div (l : List ℝ) (s : ℝ) :
    (l.map fun x => x / s).sum = l.sum / s := by
  induction l with
  | nil => simp
  | cons a l ih => rw [List.map_cons, List.sum_cons, List.sum_cons, ih, add_div]

lemma exps_sum_pos (l : List ℝ) (m : ℝ) (h : l ≠ []) :
    0 < (l.map fun y => Real.exp (y - m)).sum := by
  apply List.sum_pos
  · intro a ha
    rcases List.mem_map.mp ha with ⟨y, _, rfl⟩
    exact Real.exp_pos _
  · simpa using h

lemma foldl_max_map_add {α : Type} [LinearOrderedField α]
    (c : α) (xs : List α) (x : α) :
    (xs.map fun v => v + c).foldl max (x + c) = xs.foldl max x + c := by
  induction xs generalizing x with
  | nil => simp
  | cons a xs ih => rw [List.map_cons, List.foldl_cons, List.foldl_cons,
      max_add_add_right, ih]

lemma jsMax_map_add {α : Type} [LinearOrderedField α]
    (c : α) (a : α) (t : List α) :
    jsMax ((a :: t).map fun v => v + c) = jsMax (a :: t) + c := by
  rw [List.map_cons, jsMax, jsMax, foldl_max_map_add]

lemma foldl_cel_aux (p t : List ℝ) (L : List ℕ) (acc : ℝ) :
    L.foldl (fun loss i =>
        if 0 < p.getD i 0 then loss - t.getD i 0 * Real.log (p.getD i 0)
        else loss) acc
      = acc - (L.map fun i =>
          if 0 < p.getD i 0 then t.getD i 0 * Real.log (p.getD i 0) else 0).sum := by
  induction L generalizing acc with
  | nil => simp
  | cons a L ih =>
    rw [List.foldl_cons, ih, List.map_cons, List.sum_cons]
    by_cases h : 0 < p.getD a 0
    · rw [if_pos h, if_pos h]; ring
    · rw [if_neg h, if_neg h]; ring

lemma crossEntropyLoss_eq (p t : List ℝ) :
    crossEntropyLoss p t
      = -((List.range p.length).map fun i =>
          if 0 < p.getD i 0 then t.getD i 0 * Real.log (p.getD i 0) else 0).sum := by
  rw [crossEntropyLoss, foldl_cel_aux]
  ring

lemma range_map_sum_single {M : Type} [AddCommMonoid M] {n k : ℕ} (hk : k < n)
    (f : ℕ → M) (h0 : ∀ i, i < n → i ≠ k → f i = 0) :
    ((List.range n).map f).sum = f k := by
  rw [range_map_sum_eq]
  exact Finset.sum_eq_single_of_mem k (Finset.mem_range.mpr hk)
    fun b hb hbk => h0 b (Finset.mem_range.mp hb) hbk

lemma oneHot_getD {α : Type} [LinearOrderedField α] {n k : ℕ} (i : ℕ)
    (hi : i < n) :
    (oneHot n k : List α).getD i 0 = if i = k then 1 else 0 := by
  unfold oneHot
  have hlen : i < ((List.replicate n (0 : α)).set k 1).length := by simpa using hi
  rw [List.getD_eq_getElem _ _ hlen]
  by_cases h : i = k
  · subst h
    rw [if_pos rfl]
    exact List.getElem_set_self _
  · rw [if_neg h, List.getElem_set_ne (Ne.symm h), List.getElem_replicate]

lemma crossEntropyLoss_oneHot (p : List ℝ) {k : ℕ} (hk : k < p.length) :
    crossEntropyLoss p (oneHot p.length k)
      = if 0 < p.getD k 0 then -Real.log (p.getD k 0) else 0 := by
  rw [crossEntropyLoss_eq]
  rw [range_map_sum_single hk _ (fun i hi hik => ?_)]
  · rw [oneHot_getD k hk, if_pos rfl]
    by_cases h : 0 < p.getD k 0
    · rw [if_pos h, if_pos h, one_mul]
    · rw [if_neg h, if_neg h, neg_zero]
  · rw [oneHot_getD i hi, if_neg hik]
    by_cases h : 0 < p.getD i 0
    · rw [if_pos h, zero_mul]
    · rw [if_neg h]

lemma getD_replicate_self {α : Type} (n i : ℕ) (a : α) :
    (List.replicate n a).getD i a = a := by
  rcases lt_or_le i n with h | h
  · rw [List.getD_eq_getElem _ _ (by simpa using h)]
    exact List.getElem_replicate _ _
  · rw [List.getD_eq_default _ _ (by simpa using h)]

lemma forwardLayer_zero_input {α : Type} [LinearOrderedField α]
    (m : ℕ) (W : List (List α)) :
    forwardLayer (List.replicate m 0) W = List.replicate W.length 0 := by
  unfold forwardLayer
  have h1 : ∀ row ∈ W,
      ((List.range (List.replicate m (0 : α)).length).map
        fun j => (List.replicate m (0 : α)).getD j 0 * row.getD j 0).sum
        = (fun _ : List α => (0 : α)) row := by
    intro row _
    have h2 : ∀ j ∈ List.range (List.replicate m (0 : α)).length,
        (List.replicate m (0 : α)).getD j 0 * row.getD j 0 = (fun _ : ℕ => (0 : α)) j :=
      fun j _ => by rw [getD_replicate_self, zero_mul]
    rw [List.map_congr_left h2]
    simp
  rw [List.map_congr_left h1, List.map_const']

lemma foldl_max_replicate {α : Type} [LinearOrderedField α] (n : ℕ) (a : α) :
    (List.replicate n a).foldl max a = a := by
  induction n with
  | zero => rfl
  | succ n ih => rw [List.replicate_succ, List.foldl_cons, max_self, ih]

lemma jsMax_replicate {α : Type} [LinearOrderedField α] (n : ℕ) (a : α) :
    jsMax (List.replicate (n + 1) a) = a := by
  rw [List.replicate_succ, jsMax, foldl_max_replicate]

/-! ## Claim theorems -/

/-- C1: the backward pass follows the stated recurrences: the output delta is
`output[i] - target[i]`; each weight-gradient contribution is the outer product
`dz[i] * a[j]` *added onto* the running gradient matrix entry (not
overwriting it); the hidden delta is `Σ_j W[j][i] * dz[j]` (multiplication by
the transposed weight matrix); and the ReLU derivative masks it to
`da[i]` when `z[i] > 0` and `0` otherwise. -/
theorem c1_backward_recurrences {α : Type} [LinearOrderedField α] :
    (∀ (output target : List α) i, i < output.length →
        (outputDelta output target).getD i 0 = output.getD i 0 - target.getD i 0) ∧
    (∀ (G : List (List α)) (dz a : List α) i j,
        i < G.length → j < (G.getD i []).length →
        ((accumulateGradient G dz a).getD i []).getD j 0
          = (G.getD i []).getD j 0 + dz.getD i 0 * a.getD j 0) ∧
    (∀ (W : List (List α)) (dz : List α) n i, i < n →
        (backpropDelta W dz n).getD i 0
          = ∑ j ∈ Finset.range dz.length, (W.getD j []).getD i 0 * dz.getD j 0) ∧
    (∀ (da z : List α) i, i < da.length →
        (reluMask da z).getD i 0 = if 0 < z.getD i 0 then da.getD i 0 else 0) := by
  refine ⟨fun output target i hi => ?_, fun G dz a i j hi hj => ?_,
    fun W dz n i hi => ?_, fun da z i hi => ?_⟩
  · rw [outputDelta, getD_range_map _ _ hi]
  · rw [accumulateGradient, getD_range_map _ _ hi, getD_range_map _ _ hj]
  · rw [backpropDelta, getD_range_map _ _ hi, range_map_sum_eq]
  · rw [reluMask, getD_range_map _ _ hi]

/-- C4: the weight update is plain SGD: every entry becomes
`w[i][j] - learningRate * (G[i][j] / batchSize)` with `learningRate = 0.01`,
and `applyUpdate` is a pure function of the weights, gradients, batch size and
learning rate alone. -/
theorem c4_sgd_update :
    learningRate = 1 / 100 ∧
    ∀ (w G : List (List ℚ)) (batchSize : ℚ) (i j : ℕ),
      i < w.length → j < (w.getD i []).length →
      ((applyUpdate w G batchSize learningRate).getD i []).getD j 0
        = (w.getD i []).getD j 0 - learningRate * ((G.getD i []).getD j 0 / batchSize) := by
  refine ⟨rfl, fun w G batchSize i j hi hj => ?_⟩
  rw [applyUpdate, getD_range_map _ _ hi, getD_range_map _ _ hj]

/-- C2: for every nonempty logit vector, `softmax` returns a vector of the
same length with all entries nonnegative summing exactly to 1 (exact
arithmetic), each entry being `exp(v[i] - max v)` divided by the sum of the
shifted exponentials. -/
theorem c2_softmax_distribution (l : List ℝ) (h : l ≠ []) :
    (softmax l).length = l.length ∧
    (∀ p ∈ softmax l, 0 ≤ p) ∧
    (softmax l).sum = 1 ∧
    ∀ i, i < l.length →
      (softmax l).getD i 0
        = Real.exp (l.getD i 0 - jsMax l)
            / (l.map fun y => Real.exp (y - jsMax l)).sum := by
  have hs : 0 < (l.map fun y => Real.exp (y - jsMax l)).sum := exps_sum_pos l _ h
  refine ⟨by simp [softmax], ?_, ?_, ?_⟩
  · intro p hp
    rcases List.mem_map.mp hp with ⟨e, he, rfl⟩
    rcases List.mem_map.mp he with ⟨y, _, rfl⟩
    exact div_nonneg (Real.exp_pos _).le hs.le
  · rw [softmax, sum_map_div, div_self hs.ne']
  · intro i hi
    rw [softmax,
      getD_map_of_lt _ _ (by simpa using hi) 0,
      getD_map_of_lt _ _ hi 0]

/-- C10: `softmax` is shift-invariant: adding the same constant to every
logit leaves the output unchanged (so in exact arithmetic the
max-subtraction step does not change the result relative to naive
exponentiation). -/
theorem c10_softmax_shift_invariant (l : List ℝ) (c : ℝ) :
    softmax (l.map fun x => x + c) = softmax l := by
  cases l with
  | nil => rfl
  | cons a t =>
    have hexps : ((a :: t).map fun x => x + c).map
          (fun x => Real.exp (x - jsMax ((a :: t).map fun v => v + c)))
        = (a :: t).map fun x => Real.exp (x - jsMax (a :: t)) := by
      rw [jsMax_map_add, List.map_map]
      apply List.map_congr_left
      intro y _
      show Real.exp (y + c - (jsMax (a :: t) + c)) = Real.exp (y - jsMax (a :: t))
      rw [add_sub_add_right_eq_sub]
    rw [softmax, softmax, hexps]

/-- C3: for a probability vector `p` (entries nonnegative, summing to 1) and
a one-hot target with the 1 at a valid index `k`, the cross-entropy loss is
nonnegative; it equals `-log p[k]` when `p[k] > 0`, and is treated as `0`
(the `output[i] > 0` guard skips the term) when `p[k] = 0`. -/
theorem c3_crossEntropyLoss_oneHot (p : List ℝ) (k : ℕ)
    (hp : ∀ x ∈ p, 0 ≤ x) (hs : p.sum = 1) (hk : k < p.length) :
    0 ≤ crossEntropyLoss p (oneHot p.length k) ∧
    (0 < p.getD k 0 →
      crossEntropyLoss p (oneHot p.length k) = -Real.log (p.getD k 0)) ∧
    (p.getD k 0 = 0 → crossEntropyLoss p (oneHot p.length k) = 0) := by
  have hmem : p.getD k 0 ∈ p := by
    rw [List.getD_eq_getElem _ _ hk]
    exact List.getElem_mem hk
  have hle : p.getD k 0 ≤ 1 := hs ▸ List.single_le_sum hp _ hmem
  rw [crossEntropyLoss_oneHot p hk]
  refine ⟨?_, fun h => by rw [if_pos h], fun h => by rw [if_neg (by rw [h]; exact lt_irrefl 0)]⟩
  by_cases h : 0 < p.getD k 0
  · rw [if_pos h]
    exact neg_nonneg.mpr (Real.log_nonpos (hp _ hmem) hle)
  · rw [if_neg h]

/-- C9: with the three weight matrices all zero and an all-zero normalized
input vector, every layer's pre-activation is the zero vector, ReLU keeps it
zero, the softmax output is the uniform distribution `1/10` per class, and
the cross-entropy loss is `-log(1/10)` for every one-hot target. -/
theorem c9_zero_network_scenario (k : ℕ) (hk : k < 10) :
    forwardLayer (List.replicate 784 (0 : ℝ)) (createZeroMatrix 16 784)
        = List.replicate 16 0 ∧
    (List.replicate 16 (0 : ℝ)).map relu = List.replicate 16 0 ∧
    forwardLayer (List.replicate 16 (0 : ℝ)) (createZeroMatrix 16 16)
        = List.replicate 16 0 ∧
    forwardLayer (List.replicate 16 (0 : ℝ)) (createZeroMatrix 10 16)
        = List.replicate 10 0 ∧
    softmax (List.replicate 10 (0 : ℝ)) = List.replicate 10 (1 / 10) ∧
    crossEntropyLoss (List.replicate 10 ((1 : ℝ) / 10)) (oneHot 10 k)
        = -Real.log (1 / 10) := by
  have hzm : ∀ r c : ℕ, (createZeroMatrix (α := ℝ) r c).length = r := by
    intro r c; simp [createZeroMatrix]
  have hmax : jsMax (List.replicate 10 (0 : ℝ)) = 0 := jsMax_replicate 9 0
  have hexps : (List.replicate 10 (0 : ℝ)).map
      (fun x => Real.exp (x - jsMax (List.replicate 10 (0 : ℝ))))
      = List.replicate 10 1 := by
    rw [hmax, List.map_replicate, sub_zero, Real.exp_zero]
  have hsoftmax : softmax (List.replicate 10 (0 : ℝ)) = List.replicate 10 (1 / 10) := by
    rw [softmax, hexps, List.map_replicate, List.sum_replicate, nsmul_eq_mul]
    norm_num
  have hlen : (List.replicate 10 ((1 : ℝ) / 10)).length = 10 := by simp
  have hloss := crossEntropyLoss_oneHot (List.replicate 10 ((1 : ℝ) / 10))
    (k := k) (by simpa using hk)
  rw [hlen] at hloss
  have hgetD : (List.replicate 10 ((1 : ℝ) / 10)).getD k 0 = 1 / 10 := by
    rw [List.getD_eq_getElem _ _ (by simpa using hk)]
    exact List.getElem_replicate _ _
  rw [hgetD] at hloss
  refine ⟨?_, ?_, ?_, ?_, hsoftmax, ?_⟩
  · rw [forwardLayer_zero_input, hzm]
  · rw [List.map_replicate]
    have : relu (0 : ℝ) = 0 := max_self 0
    rw [this]
  · rw [forwardLayer_zero_input, hzm]
  · rw [forwardLayer_zero_input, hzm]
  · rw [hloss, if_pos (by norm_num)]

/-- C5: the weight update has no guard on the batch size.  With an empty
batch (`batchSize = 0`, accumulated gradients all zero) the JS division
`0 / 0` yields NaN, which the unguarded update writes into the weight entry;
the batch loss `totalLoss / batchSize = 0 / 0` is NaN as well. -/
theorem c5_empty_batch_update_nan :
    applyUpdateJs [[some 1]] [[some 0]] (some 0) (some (1 / 100)) = [[none]] ∧
    jsDiv (some 0) (some 0) = none := by
  constructor
  · rfl
  · rfl

/-- C6 counterexample: `loadWeights` does not fall back to fresh weights on a
bad file.  An existing file whose contents fail to parse makes the
`JSON.parse` exception propagate (training crashes), and a successfully
parsed document is returned as-is with no shape validation. -/
theorem c6_counterexample_no_validation :
    loadWeights (some none) (fun _ => 1 / 2) (fun _ => 1 / 2) (fun _ => 1 / 2)
        = Except.error "SyntaxError: Unexpected token in JSON" ∧
    loadWeights (some (some ([[42]], [], []))) (fun _ => 1 / 2) (fun _ => 1 / 2)
        (fun _ => 1 / 2)
        = Except.ok ([[42]], [], []) := by
  constructor
  · rfl
  · rfl

/-- C6 (amended): `loadWeights` yields freshly initialized weights of correct
shapes (16×784, 16×16, 10×16) only when the weights file is missing; when the
file exists, the parsed document is returned without any shape validation,
and an unparseable document raises an error that propagates out of
`loadWeights`. -/
theorem c6_loadWeights_amended (r0 r1 r2 : ℕ → ℝ) (w : WeightsObj) :
    loadWeights none r0 r1 r2
        = Except.ok
            (initializeWeights 784 16 r0, initializeWeights 16 16 r1,
              initializeWeights 16 10 r2) ∧
    (initializeWeights 784 16 r0).length = 16 ∧
    (initializeWeights 784 16 r0).map List.length = List.replicate 16 784 ∧
    (initializeWeights 16 16 r1).length = 16 ∧
    (initializeWeights 16 16 r1).map List.length = List.replicate 16 16 ∧
    (initializeWeights 16 10 r2).length = 10 ∧
    (initializeWeights 16 10 r2).map List.length = List.replicate 10 16 ∧
    loadWeights (some (some w)) r0 r1 r2 = Except.ok w ∧
    loadWeights (some none) r0 r1 r2
        = Except.error "SyntaxError: Unexpected token in JSON" := by
  refine ⟨rfl, ?_, ?_, ?_, ?_, ?_, ?_, rfl, rfl⟩ <;>
    simp [initializeWeights, List.map_map, Function.comp_def, List.map_const']

lemma pixels_length {β : Type} (f : ℕ → ℕ → β) :
    ((List.range 28).flatMap fun y => (List.range 28).map fun x => f y x).length
      = 784 := by
  rw [List.length_flatMap]
  have h : List.map (List.length ∘ fun y => (List.range 28).map fun x => f y x)
      (List.range 28) = List.map (fun _ => 28) (List.range 28) := by
    apply List.map_congr_left
    intro y _
    simp
  rw [h, List.map_const', List.sum_replicate]
  simp

/-- C7: when the two buffers are long enough to hold the requested records —
which the fixed-record source files (16-byte header + 60000·784 image bytes,
8-byte header + 60000 label bytes) always are for any requested range —
`readMNIST` returns one `{index, label, pixels}` record per index from
`start` up to (but excluding) `end`, capped at 60000; each record's pixels
list has length 784 with every entry a defined number in `[0, 1]`, and its
label is defined; and when the source files are missing/unreadable the catch
block returns the empty sequence. -/
theorem c7_readMNIST_records (d l : List (Fin 256)) (s e : ℕ)
    (hd : min e 60000 * 784 + 16 ≤ d.length)
    (hl : min e 60000 + 8 ≤ l.length) :
    readMNIST none s e = [] ∧
    (readMNIST (some (d, l)) s e).length = min e 60000 - s ∧
    ∀ k, k < min e 60000 - s →
      ((readMNIST (some (d, l)) s e).getD k default).index = s + k ∧
      ((readMNIST (some (d, l)) s e).getD k default).label.isSome = true ∧
      ((readMNIST (some (d, l)) s e).getD k default).pixels.length = 784 ∧
      ∀ p ∈ ((readMNIST (some (d, l)) s e).getD k default).pixels,
        ∃ q, p = some q ∧ 0 ≤ q ∧ q ≤ 1 := by
  refine ⟨rfl, by simp [readMNIST], ?_⟩
  intro k hk
  have hlen : k < (List.range' s (min e 60000 - s)).length := by simpa using hk
  have hgetD : (readMNIST (some (d, l)) s e).getD k default
      = { index := s + k
          label := (l[s + k + 8]?).map Fin.val
          pixels := (List.range 28).flatMap fun y =>
            (List.range 28).map fun x =>
              (d[(s + k) * 28 * 28 + (x + y * 28) + 16]?).map
                fun b => ((b : ℕ) : ℚ) / 255 } := by
    rw [readMNIST]
    rw [getD_map_of_lt _ _ hlen 0]
    rw [List.getD_eq_getElem _ _ hlen]
    simp [List.getElem_range']
  have hsk : s + k < min e 60000 := by omega
  rw [hgetD]
  refine ⟨rfl, ?_, pixels_length _, ?_⟩
  · have hli : s + k + 8 < l.length := by omega
    rw [List.getElem?_eq_getElem hli]
    rfl
  · intro p hp
    rcases List.mem_flatMap.mp hp with ⟨y, hy, hpy⟩
    rcases List.mem_map.mp hpy with ⟨x, hx, rfl⟩
    have hy' : y < 28 := List.mem_range.mp hy
    have hx' : x < 28 := List.mem_range.mp hx
    have hdi : (s + k) * 28 * 28 + (x + y * 28) + 16 < d.length := by omega
    rw [List.getElem?_eq_getElem hdi]
    refine ⟨((d[(s + k) * 28 * 28 + (x + y * 28) + 16] : ℕ) : ℚ) / 255, rfl, ?_, ?_⟩
    · positivity
    · rw [div_le_one (by norm_num)]
      have hb : (d[(s + k) * 28 * 28 + (x + y * 28) + 16] : ℕ) ≤ 255 :=
        Nat.le_of_lt_succ (d[(s + k) * 28 * 28 + (x + y * 28) + 16]).isLt
      exact_mod_cast hb

/-- C8: `forwardLayer` is linear in its weight matrix: scaling every weight by
`c` scales every output entry by `c`; and each output entry is the dot product
of the corresponding weight row with the input vector. -/
theorem c8_forwardLayer_linear {α : Type} [LinearOrderedField α]
    (x : List α) (W : List (List α)) (c : α) :
    forwardLayer x (W.map fun row => row.map fun v => c * v)
        = (forwardLayer x W).map (fun z => c * z) ∧
      ∀ i, i < W.length →
        (forwardLayer x W).getD i 0
          = ∑ j ∈ Finset.range x.length, x.getD j 0 * (W.getD i []).getD j 0 := by
  constructor
  · unfold forwardLayer
    rw [List.map_map, List.map_map]
    apply List.map_congr_left
    intro row _
    show ((List.range x.length).map
        fun j => x.getD j 0 * (row.map fun v => c * v).getD j 0).sum
      = c * ((List.range x.length).map fun j => x.getD j 0 * row.getD j 0).sum
    rw [← List.sum_map_mul_left]
    apply congrArg
    apply List.map_congr_left
    intro j _
    show x.getD j 0 * (row.map fun v => c * v).getD j 0
        = c * (x.getD j 0 * row.getD j 0)
    rw [getD_map_mul]
    ring
  · intro i hi
    unfold forwardLayer
    rw [List.getD_eq_getElem _ _ (by simpa using hi), List.getElem_map,
      range_map_sum_eq]
    apply Finset.sum_congr rfl
    intro j _
    rw [List.getD_eq_getElem _ _ hi]

/-! ## Concrete witnesses -/

/-- Witness for C1 at concrete rational inputs. -/
theorem c1_backward_recurrences_witness :
    ((0 : ℕ) < ([(1 : ℚ) / 2, 1 / 4] : List ℚ).length ∧
      (outputDelta [(1 : ℚ) / 2, 1 / 4] [0, 1]).getD 0 0
        = ([(1 : ℚ) / 2, 1 / 4] : List ℚ).getD 0 0
            - ([(0 : ℚ), 1] : List ℚ).getD 0 0) ∧
    ((0 : ℕ) < ([[(5 : ℚ), 6]] : List (List ℚ)).length ∧
      (1 : ℕ) < (([[(5 : ℚ), 6]] : List (List ℚ)).getD 0 []).length ∧
      ((accumulateGradient [[(5 : ℚ), 6]] [2] [3, 4]).getD 0 []).getD 1 0
        = (([[(5 : ℚ), 6]] : List (List ℚ)).getD 0 []).getD 1 0
            + ([(2 : ℚ)] : List ℚ).getD 0 0 * ([(3 : ℚ), 4] : List ℚ).getD 1 0) ∧
    ((0 : ℕ) < 1 ∧
      (backpropDelta [[(7 : ℚ)], [9]] [1, 2] 1).getD 0 0
        = ∑ j ∈ Finset.range ([(1 : ℚ), 2] : List ℚ).length,
            (([[(7 : ℚ)], [9]] : List (List ℚ)).getD j []).getD 0 0
              * ([(1 : ℚ), 2] : List ℚ).getD j 0) ∧
    ((0 : ℕ) < ([(1 : ℚ), -2] : List ℚ).length ∧
      (reluMask [(1 : ℚ), -2] [3, -5]).getD 0 0
        = if (0 : ℚ) < ([(3 : ℚ), -5] : List ℚ).getD 0 0
          then ([(1 : ℚ), -2] : List ℚ).getD 0 0 else 0) := by
  obtain ⟨h1, h2, h3, h4⟩ := c1_backward_recurrences (α := ℚ)
  exact ⟨⟨by decide, h1 _ _ 0 (by decide)⟩,
    ⟨by decide, by decide, h2 _ _ _ 0 1 (by decide) (by decide)⟩,
    ⟨by decide, h3 _ _ 1 0 (by decide)⟩,
    ⟨by decide, h4 _ _ 0 (by decide)⟩⟩

/-- Witness for C2 at the concrete logit vector `[0, 0]`. -/
theorem c2_softmax_distribution_witness :
    ([(0 : ℝ), 0] ≠ ([] : List ℝ)) ∧
    ((softmax [(0 : ℝ), 0]).length = ([(0 : ℝ), 0] : List ℝ).length ∧
      (∀ p ∈ softmax [(0 : ℝ), 0], 0 ≤ p) ∧
      (softmax [(0 : ℝ), 0]).sum = 1 ∧
      ∀ i, i < ([(0 : ℝ), 0] : List ℝ).length →
        (softmax [(0 : ℝ), 0]).getD i 0
          = Real.exp (([(0 : ℝ), 0] : List ℝ).getD i 0 - jsMax [(0 : ℝ), 0])
              / (([(0 : ℝ), 0] : List ℝ).map
                  fun y => Real.exp (y - jsMax [(0 : ℝ), 0])).sum) :=
  ⟨by simp, c2_softmax_distribution [0, 0] (by simp)⟩

/-- Witness for C3 at the probability vector `[1/2, 1/2]` with target class 0. -/
theorem c3_crossEntropyLoss_oneHot_witness :
    (∀ x ∈ [(1 : ℝ) / 2, 1 / 2], 0 ≤ x) ∧
    ([(1 : ℝ) / 2, 1 / 2] : List ℝ).sum = 1 ∧
    (0 : ℕ) < ([(1 : ℝ) / 2, 1 / 2] : List ℝ).length ∧
    (0 ≤ crossEntropyLoss [(1 : ℝ) / 2, 1 / 2]
        (oneHot ([(1 : ℝ) / 2, 1 / 2] : List ℝ).length 0) ∧
      (0 < ([(1 : ℝ) / 2, 1 / 2] : List ℝ).getD 0 0 →
        crossEntropyLoss [(1 : ℝ) / 2, 1 / 2]
            (oneHot ([(1 : ℝ) / 2, 1 / 2] : List ℝ).length 0)
          = -Real.log (([(1 : ℝ) / 2, 1 / 2] : List ℝ).getD 0 0)) ∧
      (([(1 : ℝ) / 2, 1 / 2] : List ℝ).getD 0 0 = 0 →
        crossEntropyLoss [(1 : ℝ) / 2, 1 / 2]
            (oneHot ([(1 : ℝ) / 2, 1 / 2] : List ℝ).length 0) = 0)) :=
  ⟨by intro x hx; rcases List.mem_cons.mp hx with rfl | hx' <;> simp_all,
    by norm_num,
    by norm_num,
    c3_crossEntropyLoss_oneHot [1 / 2, 1 / 2] 0
      (by intro x hx; rcases List.mem_cons.mp hx with rfl | hx' <;> simp_all)
      (by norm_num) (by norm_num)⟩

/-- Witness for C4 at a concrete 1×1 layer. -/
theorem c4_sgd_update_witness :
    learningRate = 1 / 100 ∧
    (0 : ℕ) < ([[(3 : ℚ)]] : List (List ℚ)).length ∧
    (0 : ℕ) < (([[(3 : ℚ)]] : List (List ℚ)).getD 0 []).length ∧
    ((applyUpdate [[(3 : ℚ)]] [[(7 : ℚ)]] 2 learningRate).getD 0 []).getD 0 0
      = (([[(3 : ℚ)]] : List (List ℚ)).getD 0 []).getD 0 0
          - learningRate * ((([[(7 : ℚ)]] : List (List ℚ)).getD 0 []).getD 0 0 / 2) :=
  ⟨c4_sgd_update.1, by decide, by decide,
    c4_sgd_update.2 [[3]] [[7]] 2 0 0 (by decide) (by decide)⟩

/-- Witness for C7: an 800-byte image buffer and a 9-byte label buffer cover
the single record of the range `[0, 1)` (offsets up to `783 + 16` and `0 + 8`). -/
theorem c7_readMNIST_records_witness :
    (min 1 60000 * 784 + 16 ≤ (List.replicate 800 (0 : Fin 256)).length) ∧
    (min 1 60000 + 8 ≤ (List.replicate 9 (0 : Fin 256)).length) ∧
    (0 < min 1 60000 - 0) ∧
    readMNIST none 0 1 = [] ∧
    (readMNIST (some (List.replicate 800 (0 : Fin 256),
        List.replicate 9 (0 : Fin 256))) 0 1).length = min 1 60000 - 0 ∧
    ((readMNIST (some (List.replicate 800 (0 : Fin 256),
        List.replicate 9 (0 : Fin 256))) 0 1).getD 0 default).index = 0 + 0 ∧
    ((readMNIST (some (List.replicate 800 (0 : Fin 256),
        List.replicate 9 (0 : Fin 256))) 0 1).getD 0 default).label.isSome = true ∧
    ((readMNIST (some (List.replicate 800 (0 : Fin 256),
        List.replicate 9 (0 : Fin 256))) 0 1).getD 0 default).pixels.length = 784 ∧
    ∀ p ∈ ((readMNIST (some (List.replicate 800 (0 : Fin 256),
        List.replicate 9 (0 : Fin 256))) 0 1).getD 0 default).pixels,
      ∃ q, p = some q ∧ 0 ≤ q ∧ q ≤ 1 := by
  have h := c7_readMNIST_records (List.replicate 800 0) (List.replicate 9 0) 0 1
    (by rw [List.length_replicate]; omega) (by rw [List.length_replicate]; omega)
  exact ⟨by rw [List.length_replicate]; omega, by rw [List.length_replicate]; omega,
    by decide, h.1, h.2.1, (h.2.2 0 (by decide)).1,
    (h.2.2 0 (by decide)).2.1, (h.2.2 0 (by decide)).2.2.1,
    (h.2.2 0 (by decide)).2.2.2⟩

/-- Witness for C8 at a concrete 2×2 layer with scale factor 2. -/
theorem c8_forwardLayer_linear_witness :
    ((1 : ℕ) < ([[(3 : ℚ), 4], [5, 6]] : List (List ℚ)).length) ∧
    forwardLayer [(1 : ℚ), 2]
        (([[(3 : ℚ), 4], [5, 6]] : List (List ℚ)).map
          fun row => row.map fun v => (2 : ℚ) * v)
      = (forwardLayer [(1 : ℚ), 2] [[3, 4], [5, 6]]).map (fun z => (2 : ℚ) * z) ∧
    (forwardLayer [(1 : ℚ), 2] [[3, 4], [5, 6]]).getD 1 0
      = ∑ j ∈ Finset.range ([(1 : ℚ), 2] : List ℚ).length,
          ([(1 : ℚ), 2] : List ℚ).getD j 0
            * (([[(3 : ℚ), 4], [5, 6]] : List (List ℚ)).getD 1 []).getD j 0 := by
  have h := c8_forwardLayer_linear [(1 : ℚ), 2] [[3, 4], [5, 6]] 2
  exact ⟨by decide, h.1, h.2 1 (by decide)⟩

/-- Witness for C9 at target class 0. -/
theorem c9_zero_network_scenario_witness :
    (0 : ℕ) < 10 ∧
    (forwardLayer (List.replicate 784 (0 : ℝ)) (createZeroMatrix 16 784)
        = List.replicate 16 0 ∧
      (List.replicate 16 (0 : ℝ)).map relu = List.replicate 16 0 ∧
      forwardLayer (List.replicate 16 (0 : ℝ)) (createZeroMatrix 16 16)
        = List.replicate 16 0 ∧
      forwardLayer (List.replicate 16 (0 : ℝ)) (createZeroMatrix 10 16)
        = List.replicate 10 0 ∧
      softmax (List.replicate 10 (0 : ℝ)) = List.replicate 10 (1 / 10) ∧
      crossEntropyLoss (List.replicate 10 ((1 : ℝ) / 10)) (oneHot 10 0)
        = -Real.log (1 / 10)) :=
  ⟨by decide, c9_zero_network_scenario 0 (by decide)⟩

end MNIST
